import Mathlib

/-!
Verification of the stream-discovery and task-orchestration core of
`media_sniffer.py` (header resolver, validity classifier, traffic scanner,
sniff session controller, batch job runners).

The Python source is shallowly embedded: pure helpers become Lean functions;
the stateful threads become pure functions from an explicit environment
(cancellation signal, browser session behaviour, HTTP probe results) to the
list of observable events they perform (log lines, callback invocations,
session creation/teardown).  Library calls from the Python standard library
(`str.split`, `float`, `urllib.parse.urlparse`, dict assignment) are modelled
by explicit Lean functions on character lists so that every definition is
executable and kernel-reducible.
-/

namespace MediaSniffer

/-! ### Character-list string utilities (models of Python `str` operations) -/

/-- Model of Python `pat in s` restricted to "pattern is a leading part":
`chListStarts pat l` is true iff `pat` is an initial segment of `l`. -/
def chListStarts : List Char → List Char → Bool
  | [], _ => true
  | _ :: _, [] => false
  | a :: ps, b :: cs => a == b && chListStarts ps cs

/-- `chListHasSub pat l`: does `l` contain `pat` as a contiguous segment?
Model of Python's `pat in s` substring test (`"" in s` is `True`). -/
def chListHasSub (pat : List Char) : List Char → Bool
  | [] => chListStarts pat []
  | c :: cs => chListStarts pat (c :: cs) || chListHasSub pat cs

/-- Python `pat in s` (substring containment). -/
def strHasSub (s pat : String) : Bool :=
  chListHasSub pat.toList s.toList

/-- Python `s.startswith(pat)`. -/
def strStarts (s pat : String) : Bool :=
  chListStarts pat.toList s.toList

/-- Auxiliary for `splitChar`: split a character list at every occurrence of
`sep`, accumulating the current chunk in reverse. -/
def splitCharAux (sep : Char) : List Char → List Char → List (List Char)
  | [], acc => [acc.reverse]
  | c :: cs, acc =>
    if c == sep then acc.reverse :: splitCharAux sep cs []
    else splitCharAux sep cs (c :: acc)

/-- Model of Python `s.split(sep)` for a single-character separator
(the only form the source uses: `':'`, `','`, `'\n'`). -/
def splitChar (s : String) (sep : Char) : List String :=
  (splitCharAux sep s.toList []).map String.mk

/-- Python whitespace characters recognised by `str.strip()` (ASCII subset). -/
def isSpaceCh (c : Char) : Bool :=
  c == ' ' || c == '\t' || c == '\n' || c == '\r' || c == '\x0b' || c == '\x0c'

/-- Model of Python `s.strip()` (ASCII whitespace). -/
def strTrim (s : String) : String :=
  String.mk (((s.toList.dropWhile isSpaceCh).reverse.dropWhile isSpaceCh).reverse)

/-- Model of Python `s.lower()` (ASCII case folding, as used on header keys). -/
def strLower (s : String) : String :=
  String.mk (s.toList.map Char.toLower)

/-- Model of Python `s[:n]` (take the first `n` characters). -/
def strTake (s : String) (n : Nat) : String :=
  String.mk (s.toList.take n)

/-! ### Python `dict` model

Header maps are Python `dict[str, str]`: insertion-ordered, assignment
replaces the value of an existing key in place and otherwise appends. -/

/-- A Python `dict[str, str]` as an insertion-ordered association list. -/
abbrev HMap := List (String × String)

/-- Python `d.get(k)` / `k in d` support: first binding of `k`. -/
def dictFind? : HMap → String → Option String
  | [], _ => none
  | (k', v') :: rest, k => if k' = k then some v' else dictFind? rest k

/-- Python `d[k] = v`: replace the first binding of `k` in place, or append. -/
def dictSet : HMap → String → String → HMap
  | [], k, v => [(k, v)]
  | (k', v') :: rest, k, v =>
    if k' = k then (k, v) :: rest else (k', v') :: dictSet rest k v

/-! ### Header Resolver (`get_headers`, source lines 220-238) -/

/-- The fixed baseline headers seeded by `get_headers`. -/
def baseline_headers : HMap :=
  [("User-Agent", "Mozilla/5.0 (Windows NT 10.0; Win64; x64) AppleWebKit/537.36 (KHTML, like Gecko) Chrome/123.0.0.0 Safari/537.36"),
   ("Accept", "*/*")]

/-- The ordered allow-list of header keys copied from captured headers. -/
def allow_keys : List String :=
  ["User-Agent", "Referer", "Origin", "Cookie", "Authorization"]

/-- One allow-list key: `for k, v in item_headers.items(): if k.lower() ==
key.lower(): h[key] = v` — every case-insensitive match overwrites, so the
last match in `item_headers` order wins. -/
def apply_captured (key : String) : HMap → List (String × String) → HMap
  | h, [] => h
  | h, (k, v) :: rest =>
    apply_captured key (if strLower k = strLower key then dictSet h key v else h) rest

/-- The whole captured-headers branch: fold `apply_captured` over the
ordered allow-list. -/
def apply_all_captured : HMap → List String → List (String × String) → HMap
  | h, [], _ => h
  | h, key :: keys, ih => apply_all_captured (apply_captured key h ih) keys ih

/-- Scheme and network-location fields of a parsed URL. -/
structure UrlParts where
  scheme : String
  netloc : String
deriving DecidableEq, Repr

/-- Characters allowed in a URL scheme after the first (`urllib.parse`). -/
def scheme_chars_ok (c : Char) : Bool :=
  c.isAlphanum || c == '+' || c == '-' || c == '.'

/-- Split a character list at the first `':'`, if any. -/
def findColonSplit : List Char → Option (List Char × List Char)
  | [] => none
  | c :: cs =>
    if c == ':' then some ([], cs)
    else (findColonSplit cs).map (fun p => (c :: p.1, p.2))

/-- Scheme extraction of `urllib.parse.urlsplit`: the text before the first
`':'` is a scheme iff it is non-empty, starts with a letter and uses only
scheme characters; it is lower-cased.  Otherwise the scheme is empty. -/
def split_scheme (url : String) : String × String :=
  match findColonSplit url.toList with
  | none => ("", url)
  | some (bef, aft) =>
    if bef ≠ [] ∧ (bef.headD 'x').isAlpha ∧ bef.all scheme_chars_ok then
      (String.mk (bef.map Char.toLower), String.mk aft)
    else ("", url)

/-- Netloc extraction of `urllib.parse.urlsplit`: present only after a
leading `"//"`, runs until `'/'`, `'?'` or `'#'`; mismatched IPv6 brackets
raise `ValueError`, modelled as `none`. -/
def split_netloc (rest : String) : Option String :=
  if strStarts rest "//" then
    let after := rest.toList.drop 2
    let netloc := after.takeWhile (fun c => ¬(c = '/' ∨ c = '?' ∨ c = '#'))
    if (netloc.any (· == '[')) ≠ (netloc.any (· == ']')) then none
    else some (String.mk netloc)
  else some ""

/-- Model of `urllib.parse.urlparse` restricted to the `scheme` and `netloc`
fields that `get_headers` reads; `none` models the `ValueError` raised on
mismatched IPv6 brackets (the only parse failure the source can hit). -/
def urlparse_model (url : String) : Option UrlParts :=
  let p := split_scheme url
  match split_netloc p.2 with
  | none => none
  | some netloc => some ⟨p.1, netloc⟩

/-- The `referer_url` fallback branch of `get_headers` (source lines 231-238):
`Referer` is set verbatim; `Origin` is derived from the parsed scheme and
netloc; a parse failure is swallowed, leaving `Origin` unset. -/
def get_headers_referer (h : HMap) : Option String → HMap
  | none => h
  | some r =>
    if r = "" then h
    else
      let h1 := dictSet h "Referer" r
      match urlparse_model r with
      | some p => dictSet h1 "Origin" (p.scheme ++ "://" ++ p.netloc)
      | none => h1

/-- `get_headers` (source lines 220-238).  Python truthiness: a `None` or
empty captured-header dict falls through to the referer branch; a `None` or
empty referer string falls through to the bare baseline. -/
def get_headers (item_headers : Option HMap) (referer_url : Option String) : HMap :=
  match item_headers with
  | some ih =>
    if ih.isEmpty then get_headers_referer baseline_headers referer_url
    else apply_all_captured baseline_headers allow_keys ih
  | none => get_headers_referer baseline_headers referer_url

/-! ### Validity Classifier (`check_is_main_video`, source lines 284-309) -/

/-- Decimal digits to a natural number. -/
def digitsToNat (l : List Char) : Nat :=
  l.foldl (fun n c => n * 10 + (c.toNat - 48)) 0

/-- An exact, unnormalized fraction: the value `num / den`.  Python's float
arithmetic on `#EXTINF` durations is modelled exactly; this representation
(rather than `ℚ`) keeps every operation kernel-reducible.  All fractions
built below have a positive denominator. -/
structure Frac where
  num : Int
  den : Nat
deriving DecidableEq, Repr

/-- The rational value of a fraction. -/
def Frac.toRat (a : Frac) : ℚ := (a.num : ℚ) / (a.den : ℚ)

/-- Exact addition of fractions. -/
def Frac.add (a b : Frac) : Frac :=
  ⟨a.num * (b.den : Int) + b.num * (a.den : Int), a.den * b.den⟩

/-- `n < a` for a natural bound `n`, by cross-multiplication (valid when
`0 < a.den`). -/
def Frac.gtNat (a : Frac) (n : Nat) : Bool :=
  decide ((n : Int) * (a.den : Int) < a.num)

/-- Model of Python `int(x)`: truncation toward zero (valid when `0 < a.den`). -/
def Frac.pyInt (a : Frac) : Int :=
  if a.num < 0 then -(((-a.num).toNat / a.den : Nat) : Int)
  else ((a.num.toNat / a.den : Nat) : Int)

/-- Model of Python `float(s)` on the plain decimal literals the source can
meet in `#EXTINF` duration fields: optional surrounding whitespace, optional
sign, digits with at most one decimal point (`"300"`, `"300.01"`, `".5"`,
`"5."`).  Exponent, `inf`/`nan` and underscore forms are outside the model;
values are exact rationals.  `none` models the `ValueError` that the source
swallows per line. -/
def parseDecimal? (s : String) : Option Frac :=
  let t := (strTrim s).toList
  let signed : Int × List Char :=
    match t with
    | '-' :: rest => (-1, rest)
    | '+' :: rest => (1, rest)
    | l => (1, l)
  match splitCharAux '.' signed.2 [] with
  | [ip] =>
    if ip ≠ [] ∧ ip.all Char.isDigit then some ⟨signed.1 * (digitsToNat ip : Int), 1⟩
    else none
  | [ip, fp] =>
    if ip = [] ∧ fp = [] then none
    else if ip.all Char.isDigit ∧ fp.all Char.isDigit then
      some ⟨signed.1 * ((digitsToNat ip : Int) * (10 ^ fp.length : Nat) + (digitsToNat fp : Int)),
            10 ^ fp.length⟩
    else none
  | _ => none

/-- An HTTP probe response: status code and body text, as produced by the
external HTTP client (`requests.get`). -/
structure HttpResponse where
  status_code : Nat
  text : String
deriving DecidableEq, Repr

/-- The duration field of an `#EXTINF:` line:
`line.split(':')[1].split(',')[0]`. -/
def extinf_field (line : String) : String :=
  ((splitChar ((splitChar line ':').getD 1 "") ',').headD "")

/-- The per-line step of the duration accumulation loop (source lines
295-301): an `#EXTINF:` line whose duration field parses is added, any other
line (or a parse failure) leaves the sum unchanged. -/
def extinf_step (acc : Frac) (line : String) : Frac :=
  if strStarts line "#EXTINF:" then
    match parseDecimal? (extinf_field line) with
    | some d => acc.add d
    | none => acc
  else acc

/-- The response-classification part of `check_is_main_video` (source lines
287-306), applied to an already-received HTTP response. -/
def check_response (resp : HttpResponse) : Bool × String :=
  if resp.status_code ≠ 200 then (false, "HTTP " ++ toString resp.status_code)
  else if strHasSub resp.text "#EXT-X-STREAM-INF" then (true, "Master Playlist")
  else
    let total := (splitChar resp.text '\n').foldl extinf_step ⟨0, 1⟩
    if total.gtNat 300 then (true, "長度 " ++ toString total.pyInt ++ "s")
    else (false, "過短 (" ++ toString total.pyInt ++ "s)")

/-- `check_is_main_video` (source lines 284-309).  The HTTP layer is an
explicit collaborator: `fetch url headers` returns the response, or the
message of the transport exception, which the source converts into a
rejection with that message. -/
def check_is_main_video (fetch : String → HMap → Except String HttpResponse)
    (url : String) (headers : HMap) : Bool × String :=
  match fetch url headers with
  | .error e => (false, e)
  | .ok resp => check_response resp

/-- The duration contributed by one line: the parsed duration field of an
`#EXTINF:` line, `none` for any other line or a parse failure. -/
def extinf_parse (line : String) : Option Frac :=
  if strStarts line "#EXTINF:" then parseDecimal? (extinf_field line) else none

/-- Specification-level reformulation of the duration sum: the rational sum
of the parsed duration fields of all `#EXTINF:` lines, unparseable lines
skipped. -/
def sum_extinf_durations (content : String) : ℚ :=
  (((splitChar content '\n').filterMap extinf_parse).map Frac.toRat).sum

/-! ### Data model and observable events -/

/-- A `MediaItem` (source lines 39-46).  `title` is optional because the
source distinguishes a missing title (`item.get('title', 'Unknown')`) from a
present one; for the other string fields a missing key and an empty string
are treated identically by every consumer, so they are plain strings. -/
structure MediaItem where
  title : Option String
  m3u8 : String
  original_url : String
  headers : HMap
  checked : Bool
  status : String
deriving DecidableEq, Repr

/-- The settings fields the embedded threads read. -/
structure AppSettings where
  debug_mode : Bool
  hide_delay : Nat
deriving DecidableEq, Repr

/-- One raw entry of the browser session's drained performance log, after
the per-entry JSON parsing stage (source lines 371-379) that the scanner
applies: `malformed` models an entry whose parsing raises (swallowed per
entry), `other` an event whose method is not `Network.requestWillBeSent`,
and `request` carries the url, request headers and `documentURL` fields. -/
inductive LogEntry
  | malformed
  | other
  | request (url : String) (headers : HMap) (documentURL : String)
deriving DecidableEq, Repr

/-- The observable actions of the embedded threads, in execution order:
log-callback lines, cancellation-signal checks, performance-log drains,
classifier probes, session lifecycle, navigations, row-update and
sniff-result callback invocations. -/
inductive Ev
  | log (msg : String)
  | check (t : Nat)
  | logRead (item : Nat) (iter : Nat)
  | classify (url : String)
  | sessionCreate
  | navigate (url : String)
  | quit
  | rowUpdate (idx : Nat) (status : String) (tag : Option String)
      (newUrl : Option String) (newHeaders : Option HMap)
  | sniffResult (item : Option MediaItem) (msg : String)
deriving DecidableEq, Repr

/-- Is the event one that the Traffic Scanner itself can produce? -/
def isScanEv : Ev → Bool
  | .log _ => true
  | .check _ => true
  | .logRead _ _ => true
  | .classify _ => true
  | _ => false

def isClassify : Ev → Bool
  | .classify _ => true
  | _ => false

def isLogRead : Ev → Bool
  | .logRead _ _ => true
  | _ => false

def isSessionCreate : Ev → Bool
  | .sessionCreate => true
  | _ => false

def isQuit : Ev → Bool
  | .quit => true
  | _ => false

def isSniffResult : Ev → Bool
  | .sniffResult _ _ => true
  | _ => false

/-- Does the event report a row update for row index `i`? -/
def rowUpdateFor (i : Nat) : Ev → Bool
  | .rowUpdate idx _ _ _ _ => idx == i
  | _ => false

/-- The environment a job runs against: the one-shot cancellation signal
(`stopAt` is the global check index from which `is_set()` answers true), the
page title, navigation failures, the per-item/per-iteration drained
performance-log entries, and the HTTP probe used by the classifier.
Every `stop_event.is_set()` call a thread makes consumes one global check
index, so a one-shot signal is `stopAt`-monotone by construction. -/
structure SniffEnv where
  stopAt : Option Nat
  pageTitle : String
  navRaises : String → Option String
  logsAt : Nat → Nat → List LogEntry
  fetch : String → HMap → Except String HttpResponse

/-- The value of `stop_event.is_set()` at global check index `t`. -/
def SniffEnv.isSet (env : SniffEnv) (t : Nat) : Bool :=
  match env.stopAt with
  | some s => decide (s ≤ t)
  | none => false

/-! ### Traffic Scanner (`core_sniff_logic`, source lines 351-409) -/

/-- The fixed exclusion list for ad/tracking/segment traffic. -/
def exclusion_list : List String :=
  ["doubleclick", "adsr", "litix", "segment", "favicon"]

/-- One pass over the drained log entries (source lines 370-401): parse each
entry, keep `.m3u8` request URLs, drop excluded URLs, synthesize a `Referer`
from `documentURL` when absent, resolve headers, classify, and stop at the
first accepted candidate (recording the captured, not resolved, headers). -/
def process_log_entries (env : SniffEnv) :
    List LogEntry → Option (String × HMap × String) × List Ev
  | [] => (none, [])
  | .malformed :: rest => process_log_entries env rest
  | .other :: rest => process_log_entries env rest
  | .request u hs doc :: rest =>
    if strHasSub u ".m3u8" then
      if exclusion_list.any (fun x => strHasSub u x) then process_log_entries env rest
      else
        let tmp :=
          if (dictFind? hs "Referer").isNone && (dictFind? hs "referer").isNone
          then dictSet hs "Referer" doc else hs
        let check_h := get_headers (some tmp) (some u)
        let res := check_is_main_video env.fetch u check_h
        if res.1 then (some (u, tmp, res.2), [.classify u])
        else
          let pr := process_log_entries env rest
          (pr.1, .classify u :: pr.2)
    else process_log_entries env rest

/-- The deep-scan progress line emitted every fifth iteration. -/
def progress_msg (i max_wait : Nat) : String :=
  "⚡ 深度掃描中... (" ++ toString i ++ "/" ++ toString max_wait ++ "s)"

/-- The scanner's result together with its event trace and the number of
cancellation checks it consumed. -/
structure ScanOut where
  url : Option String
  headers : Option HMap
  reason : String
  events : List Ev
  ticks : Nat
deriving Repr

/-- The iteration loop of `core_sniff_logic` (source lines 361-409).
`i` is the current iteration index, the second argument the remaining
iterations; `t0` the global check index of iteration `0`; `j` names the
scan (so distinct scans of a batch drain distinct log streams). -/
def scan_loop (env : SniffEnv) (j t0 max_wait : Nat) : Nat → Nat → ScanOut
  | _, 0 => ⟨none, none, "Timeout", [], 0⟩
  | i, fuel + 1 =>
    if env.isSet (t0 + i) then ⟨none, none, "Stop", [.check (t0 + i)], 1⟩
    else
      let evs1 : List Ev :=
        if 0 < i ∧ i % 5 = 0 then [.check (t0 + i), .log (progress_msg i max_wait)]
        else [.check (t0 + i)]
      let pres := process_log_entries env (env.logsAt j i)
      match pres.1 with
      | some (u, hs, reason) =>
        ⟨some u, some hs, reason, evs1 ++ [.logRead j i] ++ pres.2, 1⟩
      | none =>
        let rest := scan_loop env j t0 max_wait (i + 1) fuel
        ⟨rest.url, rest.headers, rest.reason,
         evs1 ++ [.logRead j i] ++ pres.2 ++ rest.events, rest.ticks + 1⟩

/-- `core_sniff_logic` (source lines 351-409): up to `max_wait` one-second
iterations, each checking the cancellation signal first. -/
def core_sniff_logic (env : SniffEnv) (j t0 max_wait : Nat) : ScanOut :=
  scan_loop env j t0 max_wait 0 max_wait

/-! ### Sniff Session Controller (`single_sniff_thread`, source lines 414-481) -/

/-- A settle-delay loop of `k` one-second steps starting at global check
index `t` (`for _ in range(k): if stop_event.is_set(): <stop>; sleep(1)`).
Returns whether a stop was observed, the checks performed, and the number of
checks consumed. -/
def delay_loop (env : SniffEnv) : Nat → Nat → Bool × List Ev × Nat
  | _, 0 => (false, [], 0)
  | t, k + 1 =>
    if env.isSet t then (true, [.check t], 1)
    else
      let rest := delay_loop env (t + 1) k
      (rest.1, .check t :: rest.2.1, rest.2.2 + 1)

/-- The post-settle phase of `single_sniff_thread` (source lines 450-471):
run the scanner, refresh the title, and report through the sniff-result
callback — `(item, "Success")` when a non-empty URL and headers were found,
`(None, "Timeout")` otherwise. -/
def sniff_report (env : SniffEnv) (target_url raw_title : String) (t0 : Nat) : List Ev :=
  let scan := core_sniff_logic env 0 t0 60
  let title2 := if strTrim env.pageTitle = "" then raw_title else strTrim env.pageTitle
  let okUrl : Bool := match scan.url with | some u => u != "" | none => false
  if okUrl && scan.headers.isSome then
    scan.events ++
    [.log ("🎉 發現目標 (" ++ scan.reason ++ "): " ++ title2),
     .sniffResult (some ⟨some title2, scan.url.getD "", target_url, scan.headers.getD [],
                         true, "OK"⟩) "Success"]
  else
    scan.events ++ [.log "❌ 逾時！未偵測到有效正片。", .sniffResult none "Timeout"]

/-- `single_sniff_thread` (source lines 414-481).  The driver is created,
the page loaded, the settle delay waited (skipped in debug mode; a
cancellation during it returns without any callback), the scanner run, and
the result reported; a navigation exception is reported as
`(None, str(e))`; the driver is torn down on every path. -/
def single_sniff_thread (env : SniffEnv) (target_url : String)
    (settings : AppSettings) : List Ev :=
  let ev0 : List Ev :=
    [.log "🚀 啟動隱形瀏覽器...", .sessionCreate,
     .log ("🌍 載入: " ++ strTake target_url 40 ++ "...")]
  match env.navRaises target_url with
  | some e =>
    ev0 ++ [.navigate target_url, .log ("❌ 錯誤: " ++ e), .sniffResult none e, .quit]
  | none =>
    let raw_title := if strTrim env.pageTitle = "" then "未命名頁面" else strTrim env.pageTitle
    if settings.debug_mode then
      ev0 ++ [.navigate target_url] ++ sniff_report env target_url raw_title 0 ++ [.quit]
    else
      let wev : List Ev := [.log ("⏳ 等待 " ++ toString settings.hide_delay ++ " 秒...")]
      let d := delay_loop env 0 settings.hide_delay
      if d.1 then ev0 ++ [.navigate target_url] ++ wev ++ d.2.1 ++ [.quit]
      else ev0 ++ [.navigate target_url] ++ wev ++ d.2.1
           ++ sniff_report env target_url raw_title d.2.2 ++ [.quit]

/-! ### Batch validity check (`check_validity_thread`, source lines 484-515) -/

/-- The per-item loop of `check_validity_thread`: check cancellation, skip
items with an empty manifest URL before any row update, otherwise report an
interim status, resolve headers from the stored headers and original URL,
classify, and report the final status. -/
def validity_loop (env : SniffEnv) : Nat → List (Nat × MediaItem) → List Ev
  | _, [] => []
  | t, (idx, item) :: rest =>
    if env.isSet t then [.check t]
    else
      if item.m3u8 = "" then .check t :: validity_loop env (t + 1) rest
      else
        let req := get_headers (some item.headers) (some item.original_url)
        let res := check_is_main_video env.fetch item.m3u8 req
        let status := if res.1 then "✅ 有效 (" ++ res.2 ++ ")" else "❌ 失效 (" ++ res.2 ++ ")"
        let tag : String := if res.1 then "completed" else "invalid"
        [.check t, .rowUpdate idx "檢查中..." none none none, .classify item.m3u8,
         .rowUpdate idx status (some tag) none none]
        ++ validity_loop env (t + 1) rest

/-- `check_validity_thread` (source lines 484-515): a start log, the
sequential per-item loop, and an unconditional completion log. -/
def check_validity_thread (env : SniffEnv) (items : List (Nat × MediaItem)) : List Ev :=
  [Ev.log ("🔍 開始檢查 " ++ toString items.length ++ " 個連結...")]
  ++ validity_loop env 0 items
  ++ [Ev.log "🏁 檢查完成"]

/-! ### Batch repair (`batch_repair_thread`, source lines 518-573) -/

/-- The per-item loop of `batch_repair_thread`: check cancellation (break),
report the interim status, skip items without an original URL, navigate the
shared session, run the settle delay (a cancellation raises `"Stop"`, caught
as a whole-batch break), scan with a 45-second cap, and report per-item
success or failure.  `j` counts processed items, `t` the global check
index. -/
def repair_loop (env : SniffEnv) (hide_delay : Nat) :
    Nat → Nat → List (Nat × MediaItem) → List Ev
  | _, _, [] => []
  | j, t, (idx, item) :: rest =>
    if env.isSet t then [.check t]
    else
      let ev1 : List Ev := [.check t, .rowUpdate idx "正在修復..." (some "downloading") none none]
      if item.original_url = "" then
        ev1 ++ [.rowUpdate idx "無原始連結" (some "error") none none,
                .log ("⚠️ 無法修復 Index " ++ toString idx ++ ": 缺少原始網址")]
        ++ repair_loop env hide_delay (j + 1) (t + 1) rest
      else
        let ev2 : List Ev :=
          [.log ("🔧 修復中: " ++ item.title.getD "Unknown"), .navigate item.original_url]
        match env.navRaises item.original_url with
        | some e =>
          if e = "Stop" then ev1 ++ ev2
          else ev1 ++ ev2 ++ [.rowUpdate idx "錯誤" (some "error") none none,
                              .log ("❌ 修復錯誤: " ++ e)]
               ++ repair_loop env hide_delay (j + 1) (t + 1) rest
        | none =>
          let d := delay_loop env (t + 1) hide_delay
          if d.1 then ev1 ++ ev2 ++ d.2.1
          else
            let scan := core_sniff_logic env j (t + 1 + d.2.2) 45
            let okUrl : Bool := match scan.url with | some u => u != "" | none => false
            let tailEvs : List Ev :=
              if okUrl && scan.headers.isSome then
                [.log ("✅ 修復成功 (Index " ++ toString idx ++ ")"),
                 .rowUpdate idx "✅ 已修復" (some "repaired") scan.url scan.headers]
              else [.rowUpdate idx "❌ 失敗" (some "error") none none]
            ev1 ++ ev2 ++ d.2.1 ++ scan.events ++ tailEvs
            ++ repair_loop env hide_delay (j + 1) (t + 1 + d.2.2 + scan.ticks) rest

/-- `batch_repair_thread` (source lines 518-573): exactly one session is
created before the loop and, in the `finally` block, torn down once and the
end-of-batch log emitted — on every exit path. -/
def batch_repair_thread (env : SniffEnv) (items : List (Nat × MediaItem))
    (settings : AppSettings) : List Ev :=
  [Ev.sessionCreate] ++ repair_loop env settings.hide_delay 0 0 items
  ++ [Ev.quit, Ev.log "🏁 修復任務結束"]

/-! ## Lemmas about the dict model and the Header Resolver -/

theorem dictFind?_dictSet_self (h : HMap) (k v : String) :
    dictFind? (dictSet h k v) k = some v := by
  induction h with
  | nil => simp [dictSet, dictFind?]
  | cons kv rest ih =>
    by_cases hk : kv.1 = k
    · simp [dictSet, dictFind?, hk]
    · simp [dictSet, dictFind?, hk, ih]

theorem dictFind?_dictSet_ne (h : HMap) (k k' v : String) (hne : k' ≠ k) :
    dictFind? (dictSet h k v) k' = dictFind? h k' := by
  induction h with
  | nil => simp [dictSet, dictFind?, Ne.symm hne]
  | cons kv rest ih =>
    by_cases hk : kv.1 = k
    · simp [dictSet, dictFind?, hk, Ne.symm hne]
    · simp only [dictSet, hk, if_false, dictFind?]
      by_cases hk' : kv.1 = k'
      · simp [hk']
      · simp [hk', ih]

theorem dictFind?_dictSet_isSome (h : HMap) (k k' v : String)
    (hs : (dictFind? h k').isSome = true) :
    (dictFind? (dictSet h k v) k').isSome = true := by
  by_cases hk : k' = k
  · subst hk; simp [dictFind?_dictSet_self]
  · rwa [dictFind?_dictSet_ne h k k' v hk]

theorem dictFind?_dictSet_isSome_rev (h : HMap) (k k' v : String)
    (hs : (dictFind? (dictSet h k v) k').isSome = true) :
    (dictFind? h k').isSome = true ∨ k' = k := by
  by_cases hk : k' = k
  · exact Or.inr hk
  · rw [dictFind?_dictSet_ne h k k' v hk] at hs; exact Or.inl hs

/-- The value a captured-headers map contributes for one allow-list key: the
value of the last case-insensitive match, if any. -/
def last_ci_match (ih : List (String × String)) (key : String) : Option String :=
  ((ih.filter (fun kv => strLower kv.1 == strLower key)).getLast?).map Prod.snd

theorem apply_captured_find_ne (key k : String) (hne : k ≠ key) :
    ∀ ih (h : HMap), dictFind? (apply_captured key h ih) k = dictFind? h k := by
  intro ih
  induction ih with
  | nil => intro h; rfl
  | cons kv rest ihi =>
    intro h
    simp only [apply_captured]
    rw [ihi]
    by_cases hm : strLower kv.1 = strLower key
    · simp [hm, dictFind?_dictSet_ne _ _ _ _ hne]
    · simp [hm]

theorem apply_captured_of_no_match (key : String) :
    ∀ ih (h : HMap), last_ci_match ih key = none → apply_captured key h ih = h := by
  intro ih
  induction ih with
  | nil => intro h _; rfl
  | cons kv rest ihi =>
    intro h hlast
    rw [last_ci_match, Option.map_eq_none', List.getLast?_eq_none_iff] at hlast
    by_cases hm : strLower kv.1 = strLower key
    · exfalso
      have : (kv :: rest).filter (fun kv => strLower kv.1 == strLower key)
          = kv :: rest.filter (fun kv => strLower kv.1 == strLower key) := by
        simp [List.filter_cons, hm]
      rw [this] at hlast
      exact List.cons_ne_nil _ _ hlast
    · have hfil : (kv :: rest).filter (fun kv => strLower kv.1 == strLower key)
          = rest.filter (fun kv => strLower kv.1 == strLower key) := by
        simp [List.filter_cons, hm]
      have hrest : rest.filter (fun kv => strLower kv.1 == strLower key) = [] := by
        rw [← hfil]; exact hlast
      simp only [apply_captured, hm, if_false]
      exact ihi h (by rw [last_ci_match, hrest]; rfl)

theorem apply_captured_of_last_match (key : String) :
    ∀ ih (h : HMap) v, last_ci_match ih key = some v →
      dictFind? (apply_captured key h ih) key = some v := by
  intro ih
  induction ih with
  | nil => intro h v hv; simp [last_ci_match] at hv
  | cons kv rest ihi =>
    intro h v hv
    by_cases hm : strLower kv.1 = strLower key
    · have hfil : (kv :: rest).filter (fun kv => strLower kv.1 == strLower key)
          = kv :: rest.filter (fun kv => strLower kv.1 == strLower key) := by
        simp [List.filter_cons, hm]
      simp only [apply_captured, hm, if_true]
      cases hrest : rest.filter (fun kv => strLower kv.1 == strLower key) with
      | nil =>
        have hnone : last_ci_match rest key = none := by
          simp [last_ci_match, hrest]
        have hv' : v = kv.2 := by
          rw [last_ci_match, hfil, hrest] at hv
          exact (Option.some.inj (by simpa using hv)).symm
        rw [apply_captured_of_no_match key rest _ hnone, hv']
        exact dictFind?_dictSet_self h key kv.2
      | cons b l =>
        have hlast : last_ci_match rest key = some v := by
          have : ((kv :: rest).filter
              (fun kv => strLower kv.1 == strLower key)).getLast?
              = (rest.filter (fun kv => strLower kv.1 == strLower key)).getLast? := by
            rw [hfil, hrest]; exact List.getLast?_cons_cons
          simp only [last_ci_match, this] at hv ⊢
          exact hv
        exact ihi _ v hlast
    · have hfil : (kv :: rest).filter (fun kv => strLower kv.1 == strLower key)
          = rest.filter (fun kv => strLower kv.1 == strLower key) := by
        simp [List.filter_cons, hm]
      have hlast : last_ci_match rest key = some v := by
        simp only [last_ci_match, ← hfil]; exact hv
      simp only [apply_captured, hm, if_false]
      exact ihi h v hlast

theorem apply_captured_isSome (key k : String) :
    ∀ ih (h : HMap), (dictFind? h k).isSome = true →
      (dictFind? (apply_captured key h ih) k).isSome = true := by
  intro ih
  induction ih with
  | nil => intro h hs; exact hs
  | cons kv rest ihi =>
    intro h hs
    simp only [apply_captured]
    apply ihi
    by_cases hm : strLower kv.1 = strLower key
    · simp only [hm, if_true]; exact dictFind?_dictSet_isSome h key k kv.2 hs
    · simpa [hm]

theorem apply_captured_isSome_rev (key k : String) :
    ∀ ih (h : HMap), (dictFind? (apply_captured key h ih) k).isSome = true →
      (dictFind? h k).isSome = true ∨ k = key := by
  intro ih
  induction ih with
  | nil => intro h hs; exact Or.inl hs
  | cons kv rest ihi =>
    intro h hs
    simp only [apply_captured] at hs
    rcases ihi _ hs with hs' | hk
    · by_cases hm : strLower kv.1 = strLower key
      · simp only [hm, if_true] at hs'
        exact dictFind?_dictSet_isSome_rev h key k kv.2 hs'
      · simp only [hm, if_false] at hs'
        exact Or.inl hs'
    · exact Or.inr hk

theorem baseline_key_of_isSome (k : String)
    (hs : (dictFind? baseline_headers k).isSome = true) :
    k = "User-Agent" ∨ k = "Accept" := by
  by_cases h1 : k = "User-Agent"
  · exact Or.inl h1
  · by_cases h2 : k = "Accept"
    · exact Or.inr h2
    · exfalso
      simp only [baseline_headers, dictFind?] at hs
      rw [if_neg (fun h => h1 h.symm), if_neg (fun h => h2 h.symm)] at hs
      simp at hs

/-- The six keys that can appear in any result of `get_headers`. -/
def result_keys : List String :=
  ["User-Agent", "Accept", "Referer", "Origin", "Cookie", "Authorization"]

theorem get_headers_captured_eq (H : HMap) (hne : H ≠ []) (R : Option String) :
    get_headers (some H) R = apply_all_captured baseline_headers allow_keys H := by
  cases H with
  | nil => exact absurd rfl hne
  | cons kv rest => rfl

/-- C4: with a non-empty captured-headers map, `get_headers` ignores the
referer URL entirely; the result is the fixed baseline overwritten, for each
allow-listed key, by the last case-insensitive match found in the captured
map; no key outside the six possible result keys ever appears. -/
theorem c4_captured_headers_authoritative (H : HMap) (hne : H ≠ [])
    (R R' : Option String) :
    get_headers (some H) R = get_headers (some H) R'
    ∧ (∀ k, (dictFind? (get_headers (some H) R) k).isSome = true → k ∈ result_keys)
    ∧ (∀ key ∈ allow_keys, ∀ v, last_ci_match H key = some v →
        dictFind? (get_headers (some H) R) key = some v)
    ∧ (∀ key ∈ allow_keys, last_ci_match H key = none →
        dictFind? (get_headers (some H) R) key = dictFind? baseline_headers key) := by
  rw [get_headers_captured_eq H hne R, get_headers_captured_eq H hne R']
  simp only [apply_all_captured, allow_keys]
  refine ⟨trivial, ?_, ?_, ?_⟩
  · intro k hk
    rcases apply_captured_isSome_rev "Authorization" k H _ hk with hk | rfl
    · rcases apply_captured_isSome_rev "Cookie" k H _ hk with hk | rfl
      · rcases apply_captured_isSome_rev "Origin" k H _ hk with hk | rfl
        · rcases apply_captured_isSome_rev "Referer" k H _ hk with hk | rfl
          · rcases apply_captured_isSome_rev "User-Agent" k H _ hk with hk | rfl
            · rcases baseline_key_of_isSome k hk with rfl | rfl
              · simp [result_keys]
              · simp [result_keys]
            · simp [result_keys]
          · simp [result_keys]
        · simp [result_keys]
      · simp [result_keys]
    · simp [result_keys]
  · intro key hkey v hv
    fin_cases hkey
    · rw [apply_captured_find_ne "Authorization" "User-Agent" (by decide),
        apply_captured_find_ne "Cookie" "User-Agent" (by decide),
        apply_captured_find_ne "Origin" "User-Agent" (by decide),
        apply_captured_find_ne "Referer" "User-Agent" (by decide)]
      exact apply_captured_of_last_match "User-Agent" H _ v hv
    · rw [apply_captured_find_ne "Authorization" "Referer" (by decide),
        apply_captured_find_ne "Cookie" "Referer" (by decide),
        apply_captured_find_ne "Origin" "Referer" (by decide)]
      exact apply_captured_of_last_match "Referer" H _ v hv
    · rw [apply_captured_find_ne "Authorization" "Origin" (by decide),
        apply_captured_find_ne "Cookie" "Origin" (by decide)]
      exact apply_captured_of_last_match "Origin" H _ v hv
    · rw [apply_captured_find_ne "Authorization" "Cookie" (by decide)]
      exact apply_captured_of_last_match "Cookie" H _ v hv
    · exact apply_captured_of_last_match "Authorization" H _ v hv
  · intro key hkey hv
    fin_cases hkey
    · rw [apply_captured_find_ne "Authorization" "User-Agent" (by decide),
        apply_captured_find_ne "Cookie" "User-Agent" (by decide),
        apply_captured_find_ne "Origin" "User-Agent" (by decide),
        apply_captured_find_ne "Referer" "User-Agent" (by decide),
        apply_captured_of_no_match "User-Agent" H _ hv]
    · rw [apply_captured_find_ne "Authorization" "Referer" (by decide),
        apply_captured_find_ne "Cookie" "Referer" (by decide),
        apply_captured_find_ne "Origin" "Referer" (by decide),
        apply_captured_of_no_match "Referer" H _ hv,
        apply_captured_find_ne "User-Agent" "Referer" (by decide)]
    · rw [apply_captured_find_ne "Authorization" "Origin" (by decide),
        apply_captured_find_ne "Cookie" "Origin" (by decide),
        apply_captured_of_no_match "Origin" H _ hv,
        apply_captured_find_ne "Referer" "Origin" (by decide),
        apply_captured_find_ne "User-Agent" "Origin" (by decide)]
    · rw [apply_captured_find_ne "Authorization" "Cookie" (by decide),
        apply_captured_of_no_match "Cookie" H _ hv,
        apply_captured_find_ne "Origin" "Cookie" (by decide),
        apply_captured_find_ne "Referer" "Cookie" (by decide),
        apply_captured_find_ne "User-Agent" "Cookie" (by decide)]
    · rw [apply_captured_of_no_match "Authorization" H _ hv,
        apply_captured_find_ne "Cookie" "Authorization" (by decide),
        apply_captured_find_ne "Origin" "Authorization" (by decide),
        apply_captured_find_ne "Referer" "Authorization" (by decide),
        apply_captured_find_ne "User-Agent" "Authorization" (by decide)]

/-- A captured map with a case-variant `Referer`, an allow-listed
`Authorization` and a non-allow-listed key, for the C4 witness. -/
def capturedW : HMap :=
  [("REFERER", "http://captured-page"), ("X-Custom", "z"), ("referer", "http://captured-page2")]

/-- C4 witness: the theorem applied at a concrete captured map and two
different referer arguments — the referer argument is immaterial, the last
case-variant `referer` entry wins, and an absent allow-listed key keeps its
baseline binding. -/
theorem c4_captured_headers_authoritative_witness :
    get_headers (some capturedW) (some "http://other") = get_headers (some capturedW) none
    ∧ dictFind? (get_headers (some capturedW) (some "http://other")) "Referer"
        = some "http://captured-page2"
    ∧ dictFind? (get_headers (some capturedW) (some "http://other")) "Cookie"
        = dictFind? baseline_headers "Cookie" :=
  ⟨(c4_captured_headers_authoritative capturedW (by decide) (some "http://other") none).1,
   (c4_captured_headers_authoritative capturedW (by decide) (some "http://other") none).2.2.1
     "Referer" (by decide) "http://captured-page2" (by decide),
   (c4_captured_headers_authoritative capturedW (by decide) (some "http://other") none).2.2.2
     "Cookie" (by decide) (by decide)⟩

/-- C5: with no captured headers, the result maps `Referer` to the referer
URL verbatim; `Origin` is `scheme://netloc` of the parsed URL, and is absent
when parsing fails. -/
theorem c5_referer_fallback (R : String) (hR : R ≠ "") :
    dictFind? (get_headers none (some R)) "Referer" = some R
    ∧ (∀ p, urlparse_model R = some p →
        dictFind? (get_headers none (some R)) "Origin"
          = some (p.scheme ++ "://" ++ p.netloc))
    ∧ (urlparse_model R = none →
        dictFind? (get_headers none (some R)) "Origin" = none) := by
  simp only [get_headers, get_headers_referer, hR, if_false]
  cases hp : urlparse_model R with
  | some p =>
    refine ⟨?_, ?_, ?_⟩
    · rw [dictFind?_dictSet_ne _ _ _ _ (by decide)]
      exact dictFind?_dictSet_self _ _ _
    · intro q hq
      cases hq
      exact dictFind?_dictSet_self _ _ _
    · intro h; cases h
  | none =>
    refine ⟨?_, ?_, ?_⟩
    · exact dictFind?_dictSet_self _ _ _
    · intro q hq; cases hq
    · intro _
      rw [dictFind?_dictSet_ne _ _ _ _ (by decide)]
      rfl

/-- C5 witness: a URL with a port (`Origin` keeps `host:port`) and a URL
with mismatched IPv6 brackets (parse failure, no `Origin`), both driven
through the theorem. -/
theorem c5_referer_fallback_witness :
    (dictFind? (get_headers none (some "https://example.com:8080/p")) "Referer"
        = some "https://example.com:8080/p"
      ∧ dictFind? (get_headers none (some "https://example.com:8080/p")) "Origin"
        = some "https://example.com:8080")
    ∧ dictFind? (get_headers none (some "http://[::1/p")) "Origin" = none := by
  refine ⟨⟨(c5_referer_fallback "https://example.com:8080/p" (by decide)).1, ?_⟩, ?_⟩
  · have h := (c5_referer_fallback "https://example.com:8080/p" (by decide)).2.1
    exact h ⟨"https", "example.com:8080"⟩ (by decide)
  · exact (c5_referer_fallback "http://[::1/p" (by decide)).2.2 (by decide)

/-- C10: every branch of `get_headers` yields a map that still binds both
baseline keys `User-Agent` and `Accept` (possibly with overwritten values). -/
theorem c10_baseline_keys_always_present (ih : Option HMap) (ru : Option String) :
    (dictFind? (get_headers ih ru) "User-Agent").isSome = true
    ∧ (dictFind? (get_headers ih ru) "Accept").isSome = true := by
  have hbU : (dictFind? baseline_headers "User-Agent").isSome = true := by decide
  have hbA : (dictFind? baseline_headers "Accept").isSome = true := by decide
  have href : ∀ (ru : Option String) (k : String),
      (dictFind? baseline_headers k).isSome = true →
      (dictFind? (get_headers_referer baseline_headers ru) k).isSome = true := by
    intro ru k hk
    cases ru with
    | none => exact hk
    | some r =>
      simp only [get_headers_referer]
      by_cases hr : r = ""
      · simpa [hr]
      · simp only [hr, if_false]
        cases urlparse_model r with
        | some p =>
          exact dictFind?_dictSet_isSome _ _ _ _ (dictFind?_dictSet_isSome _ _ _ _ hk)
        | none => exact dictFind?_dictSet_isSome _ _ _ _ hk
  have hcap : ∀ (H : HMap) (k : String),
      (dictFind? baseline_headers k).isSome = true →
      (dictFind? (apply_all_captured baseline_headers allow_keys H) k).isSome = true := by
    intro H k hk
    simp only [apply_all_captured, allow_keys]
    exact apply_captured_isSome _ _ _ _
      (apply_captured_isSome _ _ _ _
        (apply_captured_isSome _ _ _ _
          (apply_captured_isSome _ _ _ _
            (apply_captured_isSome _ _ _ _ hk))))
  cases ih with
  | none => exact ⟨href ru _ hbU, href ru _ hbA⟩
  | some H =>
    cases H with
    | nil => exact ⟨href ru _ hbU, href ru _ hbA⟩
    | cons kv rest =>
      refine ⟨?_, ?_⟩
      · rw [get_headers_captured_eq _ (List.cons_ne_nil _ _) ru]
        exact hcap _ _ hbU
      · rw [get_headers_captured_eq _ (List.cons_ne_nil _ _) ru]
        exact hcap _ _ hbA

/-- C10 witness: the theorem applied to the bare-baseline branch. -/
theorem c10_baseline_keys_always_present_witness :
    (dictFind? (get_headers none none) "User-Agent").isSome = true
    ∧ (dictFind? (get_headers none none) "Accept").isSome = true :=
  c10_baseline_keys_always_present none none

/-! ## Lemmas about the Validity Classifier -/

theorem extinf_step_eq (acc : Frac) (line : String) :
    extinf_step acc line
      = match extinf_parse line with
        | some d => acc.add d
        | none => acc := by
  cases hs : strStarts line "#EXTINF:" <;> simp [extinf_step, extinf_parse, hs]

theorem Frac.toRat_add (a b : Frac) (ha : a.den ≠ 0) (hb : b.den ≠ 0) :
    (a.add b).toRat = a.toRat + b.toRat := by
  have ha' : (a.den : ℚ) ≠ 0 := Nat.cast_ne_zero.mpr ha
  have hb' : (b.den : ℚ) ≠ 0 := Nat.cast_ne_zero.mpr hb
  simp only [Frac.add, Frac.toRat]
  push_cast
  field_simp

theorem Frac.gtNat_iff (a : Frac) (n : Nat) (ha : a.den ≠ 0) :
    a.gtNat n = true ↔ (n : ℚ) < a.toRat := by
  have ha' : (0 : ℚ) < (a.den : ℚ) := by
    exact_mod_cast Nat.pos_of_ne_zero ha
  rw [Frac.gtNat, decide_eq_true_eq, Frac.toRat, lt_div_iff₀ ha']
  constructor
  · intro h; exact_mod_cast h
  · intro h; exact_mod_cast h

theorem parseDecimal?_den_ne_zero (s : String) (f : Frac)
    (h : parseDecimal? s = some f) : f.den ≠ 0 := by
  rw [parseDecimal?] at h
  split at h
  · split at h
    · cases h; exact one_ne_zero
    · cases h
  · split at h
    · cases h
    · split at h
      · cases h
        exact (Nat.pow_pos (by norm_num)).ne'
      · cases h
  · cases h

theorem extinf_parse_den_ne_zero (line : String) (f : Frac)
    (h : extinf_parse line = some f) : f.den ≠ 0 := by
  rw [extinf_parse] at h
  split at h
  · exact parseDecimal?_den_ne_zero _ _ h
  · cases h

theorem foldl_extinf_step_toRat :
    ∀ (lines : List String) (acc : Frac), acc.den ≠ 0 →
      (lines.foldl extinf_step acc).den ≠ 0
      ∧ (lines.foldl extinf_step acc).toRat
        = acc.toRat + ((lines.filterMap extinf_parse).map Frac.toRat).sum := by
  intro lines
  induction lines with
  | nil => intro acc ha; exact ⟨ha, by simp⟩
  | cons l rest ih =>
    intro acc ha
    have hstep : (l :: rest).foldl extinf_step acc
        = rest.foldl extinf_step (extinf_step acc l) := rfl
    cases hp : extinf_parse l with
    | none =>
      have hz : extinf_step acc l = acc := by rw [extinf_step_eq, hp]
      rw [hstep, hz]
      refine ⟨(ih acc ha).1, ?_⟩
      rw [(ih acc ha).2]
      simp [List.filterMap_cons, hp]
    | some d =>
      have hd : d.den ≠ 0 := extinf_parse_den_ne_zero _ _ hp
      have hz : extinf_step acc l = acc.add d := by rw [extinf_step_eq, hp]
      have hden : (acc.add d).den ≠ 0 := by
        simp only [Frac.add]
        exact Nat.mul_ne_zero ha hd
      rw [hstep, hz]
      refine ⟨(ih _ hden).1, ?_⟩
      rw [(ih _ hden).2, Frac.toRat_add acc d ha hd]
      simp [List.filterMap_cons, hp]
      ring

/-- A constant HTTP collaborator: every probe returns the same response. -/
def fetch_const (resp : HttpResponse) : String → HMap → Except String HttpResponse :=
  fun _ _ => .ok resp

/-- A body whose `#EXTINF` durations sum to exactly 300 seconds. -/
def body_300 : String :=
  "#EXTINF:150,seg one\nx.ts\n#EXTINF:150.0,seg two\ny.ts"

/-- A body whose `#EXTINF` durations sum to exactly 300.01 seconds. -/
def body_300_01 : String :=
  "#EXTINF:150,seg one\nx.ts\n#EXTINF:150.01,seg two\ny.ts"

/-- C2: on a 200 response without the master-playlist marker, the classifier
accepts exactly when the (exact) sum of the parseable `#EXTINF` durations,
unparseable lines skipped, strictly exceeds 300 seconds; a body summing to
exactly 300 is rejected and one summing to 300.01 is accepted (and an
unparseable duration line is skipped without aborting). -/
theorem c2_duration_threshold
    (fetch : String → HMap → Except String HttpResponse) (url : String) (hdr : HMap)
    (resp : HttpResponse) (hf : fetch url hdr = .ok resp)
    (h200 : resp.status_code = 200)
    (hnm : strHasSub resp.text "#EXT-X-STREAM-INF" = false) :
    ((check_is_main_video fetch url hdr).1 = true
      ↔ (300 : ℚ) < sum_extinf_durations resp.text)
    ∧ check_is_main_video (fetch_const ⟨200, body_300⟩) "http://v.m3u8" []
        = (false, "過短 (300s)")
    ∧ sum_extinf_durations body_300 = 300
    ∧ check_is_main_video (fetch_const ⟨200, body_300_01⟩) "http://v.m3u8" []
        = (true, "長度 300s")
    ∧ sum_extinf_durations body_300_01 = 30001 / 100
    ∧ check_is_main_video
        (fetch_const ⟨200, "#EXTINF:oops,a\nx.ts\n#EXTINF:301,b\ny.ts"⟩) "http://v.m3u8" []
        = (true, "長度 301s") := by
  refine ⟨?_, by decide, ?_, by decide, ?_, by decide⟩
  · have hc : check_is_main_video fetch url hdr = check_response resp := by
      rw [check_is_main_video, hf]
    have hfold := foldl_extinf_step_toRat (splitChar resp.text '\n') ⟨0, 1⟩ one_ne_zero
    have hsum : sum_extinf_durations resp.text
        = ((splitChar resp.text '\n').foldl extinf_step ⟨0, 1⟩).toRat := by
      rw [sum_extinf_durations, hfold.2]
      simp [Frac.toRat]
    have h300 : ((300 : ℕ) : ℚ) = (300 : ℚ) := by norm_num
    rw [hc, hsum, ← h300, ← Frac.gtNat_iff _ 300 hfold.1]
    simp only [check_response, h200, hnm]
    norm_num
    cases hgt : ((splitChar resp.text '\n').foldl extinf_step ⟨0, 1⟩).gtNat 300 <;>
      simp [hgt]
  · have hlist : (splitChar body_300 '\n').filterMap extinf_parse
        = [⟨150, 1⟩, ⟨1500, 10⟩] := by decide
    rw [sum_extinf_durations, hlist]
    norm_num [Frac.toRat]
  · have hlist : (splitChar body_300_01 '\n').filterMap extinf_parse
        = [⟨150, 1⟩, ⟨15001, 100⟩] := by decide
    rw [sum_extinf_durations, hlist]
    norm_num [Frac.toRat]

/-- C2 witness: the threshold equivalence instantiated at the concrete
300.01-second body. -/
theorem c2_duration_threshold_witness :
    (check_is_main_video (fetch_const ⟨200, body_300_01⟩) "http://v.m3u8" []).1 = true
      ↔ (300 : ℚ) < sum_extinf_durations body_300_01 :=
  (c2_duration_threshold (fetch_const ⟨200, body_300_01⟩) "http://v.m3u8" []
    ⟨200, body_300_01⟩ rfl rfl (by decide)).1

/-- C3: a 200 body containing `#EXT-X-STREAM-INF` is accepted as
`"Master Playlist"` regardless of any `#EXTINF` durations; a non-200 status
is rejected as `"HTTP <status>"` without examining the body (any two
responses with the same non-200 status classify identically). -/
theorem c3_master_playlist_and_http_status
    (fetch : String → HMap → Except String HttpResponse) (url : String) (hdr : HMap)
    (resp : HttpResponse) (hf : fetch url hdr = .ok resp) :
    (resp.status_code = 200 → strHasSub resp.text "#EXT-X-STREAM-INF" = true →
      check_is_main_video fetch url hdr = (true, "Master Playlist"))
    ∧ (resp.status_code ≠ 200 →
      check_is_main_video fetch url hdr = (false, "HTTP " ++ toString resp.status_code))
    ∧ (∀ r r' : HttpResponse, r.status_code = r'.status_code → r.status_code ≠ 200 →
        check_response r = check_response r') := by
  refine ⟨?_, ?_, ?_⟩
  · intro h200 hm
    rw [check_is_main_video, hf]
    simp [check_response, h200, hm]
  · intro hne
    rw [check_is_main_video, hf]
    simp [check_response, hne]
  · intro r r' hs hne
    have hne' : r'.status_code ≠ 200 := hs ▸ hne
    simp [check_response, hne, hne', hs]

/-- C3 witness: a master playlist carrying short `#EXTINF` durations is
still accepted; a 404 is rejected with its status code. -/
theorem c3_master_playlist_and_http_status_witness :
    check_is_main_video
      (fetch_const ⟨200, "#EXT-X-STREAM-INF:BANDWIDTH=1\nv.m3u8\n#EXTINF:10,a"⟩)
      "http://v.m3u8" [] = (true, "Master Playlist")
    ∧ check_is_main_video (fetch_const ⟨404, "irrelevant"⟩) "http://v.m3u8" []
        = (false, "HTTP 404") :=
  ⟨(c3_master_playlist_and_http_status
      (fetch_const ⟨200, "#EXT-X-STREAM-INF:BANDWIDTH=1\nv.m3u8\n#EXTINF:10,a"⟩)
      "http://v.m3u8" [] _ rfl).1 rfl (by decide),
   (c3_master_playlist_and_http_status (fetch_const ⟨404, "irrelevant"⟩)
      "http://v.m3u8" [] _ rfl).2.1 (by decide)⟩

/-! ## Lemmas about the Traffic Scanner -/

/-- A log entry that can never produce a classification: it is not a
request, or its URL lacks `.m3u8`, or the URL matches the exclusion list. -/
def excludedOnlyEntry : LogEntry → Bool
  | .request u _ _ => !(strHasSub u ".m3u8") || exclusion_list.any (fun x => strHasSub u x)
  | _ => true

theorem process_log_entries_excluded (env : SniffEnv) :
    ∀ l, (∀ e ∈ l, excludedOnlyEntry e = true) →
      process_log_entries env l = (none, []) := by
  intro l
  induction l with
  | nil => intro _; rfl
  | cons e rest ih =>
    intro h
    have hrest := ih (fun e' he' => h e' (List.mem_cons_of_mem _ he'))
    cases e with
    | malformed => simpa [process_log_entries] using hrest
    | other => simpa [process_log_entries] using hrest
    | request u hs doc =>
      have he := h _ (List.mem_cons_self _ _)
      rw [excludedOnlyEntry] at he
      cases hm : strHasSub u ".m3u8" with
      | false => simpa [process_log_entries, hm] using hrest
      | true =>
        have hex : exclusion_list.any (fun x => strHasSub u x) = true := by
          rw [hm] at he
          simpa using he
        simpa [process_log_entries, hm, hex] using hrest

theorem scan_loop_all_excluded (env : SniffEnv) (j t0 max_wait : Nat)
    (hstop : env.stopAt = none) :
    ∀ fuel i, (∀ k, k < fuel → ∀ e ∈ env.logsAt j (i + k), excludedOnlyEntry e = true) →
      (scan_loop env j t0 max_wait i fuel).url = none
      ∧ (scan_loop env j t0 max_wait i fuel).headers = none
      ∧ (scan_loop env j t0 max_wait i fuel).reason = "Timeout"
      ∧ ((scan_loop env j t0 max_wait i fuel).events.countP isClassify = 0
        ∧ (scan_loop env j t0 max_wait i fuel).events.countP isLogRead = fuel) := by
  intro fuel
  induction fuel with
  | zero => intro i _; refine ⟨rfl, rfl, rfl, by simp [scan_loop]⟩
  | succ fuel ih =>
    intro i h
    have hset : env.isSet (t0 + i) = false := by simp [SniffEnv.isSet, hstop]
    have hcur : process_log_entries env (env.logsAt j i) = (none, []) := by
      apply process_log_entries_excluded
      have := h 0 (Nat.succ_pos fuel)
      simpa using this
    have hnext := ih (i + 1) (fun k hk e he => by
      have := h (k + 1) (Nat.succ_lt_succ hk) e (by
        have hi : i + (k + 1) = i + 1 + k := by omega
        rwa [hi])
      exact this)
    simp only [scan_loop, hset, Bool.false_eq_true, if_false, hcur]
    refine ⟨hnext.1, hnext.2.1, hnext.2.2.1, ?_, ?_⟩
    · rcases Nat.decEq (i % 5) 0 with h5 | h5 <;>
      · simp [List.countP_append, List.countP_cons, isClassify, hnext.2.2.2.1]
        split <;> simp [List.countP_cons, isClassify]
    · rcases Nat.decEq (i % 5) 0 with h5 | h5 <;>
      · simp [List.countP_append, List.countP_cons, isLogRead, hnext.2.2.2.2]
        split <;> simp [List.countP_cons, isLogRead]

/-- C6: a scan that observes only excluded (or non-`.m3u8`, or malformed)
traffic never classifies any candidate and times out after exactly
`max_wait` iterations (one log drain per iteration). -/
theorem c6_excluded_urls_time_out (env : SniffEnv) (j t0 max_wait : Nat)
    (hstop : env.stopAt = none)
    (hlogs : ∀ i, i < max_wait → ∀ e ∈ env.logsAt j i, excludedOnlyEntry e = true) :
    (core_sniff_logic env j t0 max_wait).url = none
    ∧ (core_sniff_logic env j t0 max_wait).headers = none
    ∧ (core_sniff_logic env j t0 max_wait).reason = "Timeout"
    ∧ (core_sniff_logic env j t0 max_wait).events.countP isClassify = 0
    ∧ (core_sniff_logic env j t0 max_wait).events.countP isLogRead = max_wait := by
  have h := scan_loop_all_excluded env j t0 max_wait hstop max_wait 0
    (fun k hk e he => hlogs k hk e (by simpa using he))
  exact ⟨h.1, h.2.1, h.2.2.1, h.2.2.2.1, h.2.2.2.2⟩

/-- An environment whose drained log only ever contains an excluded-domain
`.m3u8` request plus noise entries. -/
def env_excluded : SniffEnv :=
  ⟨none, "", fun _ => none,
   fun _ _ => [.request "http://ads.doubleclick.net/v.m3u8" [] "http://page",
               .request "http://cdn.site/x.ts" [] "http://page", .malformed, .other],
   fun _ _ => .error "unreachable"⟩

/-- C6 witness: the theorem applied to the excluded-only environment with a
3-iteration budget. -/
theorem c6_excluded_urls_time_out_witness :
    (core_sniff_logic env_excluded 0 0 3).url = none
    ∧ (core_sniff_logic env_excluded 0 0 3).headers = none
    ∧ (core_sniff_logic env_excluded 0 0 3).reason = "Timeout"
    ∧ (core_sniff_logic env_excluded 0 0 3).events.countP isClassify = 0
    ∧ (core_sniff_logic env_excluded 0 0 3).events.countP isLogRead = 3 :=
  c6_excluded_urls_time_out env_excluded 0 0 3 rfl (by decide)

/-- C7: a scan whose cancellation signal is already set at its first
iteration returns `(none, none, "Stop")` having performed exactly one
cancellation check — no classifier invocation and no performance-log
drain. -/
theorem c7_cancelled_scan_stops_immediately (env : SniffEnv) (j t0 max_wait : Nat)
    (hset : env.isSet t0 = true) (hmw : 0 < max_wait) :
    core_sniff_logic env j t0 max_wait = ⟨none, none, "Stop", [.check t0], 1⟩
    ∧ (core_sniff_logic env j t0 max_wait).events.countP isClassify = 0
    ∧ (core_sniff_logic env j t0 max_wait).events.countP isLogRead = 0 := by
  obtain ⟨k, rfl⟩ : ∃ k, max_wait = k + 1 := ⟨max_wait - 1, by omega⟩
  have h : core_sniff_logic env j t0 (k + 1) = ⟨none, none, "Stop", [.check t0], 1⟩ := by
    rw [core_sniff_logic]
    simp [scan_loop, hset]
  exact ⟨h, by rw [h]; rfl, by rw [h]; rfl⟩

/-- An environment whose cancellation signal is set from the very first
check. -/
def env_stopped : SniffEnv :=
  ⟨some 0, "T", fun _ => none, fun _ _ => [], fun _ _ => .error "unreachable"⟩

/-- C7 witness: the theorem applied to the already-cancelled environment. -/
theorem c7_cancelled_scan_stops_immediately_witness :
    core_sniff_logic env_stopped 0 0 60 = ⟨none, none, "Stop", [.check 0], 1⟩
    ∧ (core_sniff_logic env_stopped 0 0 60).events.countP isClassify = 0
    ∧ (core_sniff_logic env_stopped 0 0 60).events.countP isLogRead = 0 :=
  c7_cancelled_scan_stops_immediately env_stopped 0 0 60 (by decide) (by decide)

/-! ## Lemmas for the Sniff Session Controller -/

theorem process_log_entries_events_scanEv (env : SniffEnv) :
    ∀ l e, e ∈ (process_log_entries env l).2 → isScanEv e = true := by
  intro l
  induction l with
  | nil => intro e he; simp [process_log_entries] at he
  | cons entry rest ih =>
    intro e he
    cases entry with
    | malformed => exact ih e (by simpa [process_log_entries] using he)
    | other => exact ih e (by simpa [process_log_entries] using he)
    | request u hs doc =>
      rw [process_log_entries] at he
      by_cases hm : strHasSub u ".m3u8"
      · simp only [hm, if_true] at he
        by_cases hex : exclusion_list.any (fun x => strHasSub u x)
        · exact ih e (by simpa [hex] using he)
        · simp only [hex, Bool.false_eq_true, if_false] at he
          by_cases hres : (check_is_main_video env.fetch u
              (get_headers (some (if (dictFind? hs "Referer").isNone
                  && (dictFind? hs "referer").isNone
                then dictSet hs "Referer" doc else hs)) (some u))).1
          · simp only [hres, if_true] at he
            rcases List.mem_singleton.mp he with rfl
            rfl
          · simp only [hres, Bool.false_eq_true, if_false] at he
            rcases List.mem_cons.mp he with rfl | he'
            · rfl
            · exact ih e he'
      · exact ih e (by simpa [hm] using he)

theorem delay_loop_events_check (env : SniffEnv) :
    ∀ k t e, e ∈ (delay_loop env t k).2.1 → isScanEv e = true := by
  intro k
  induction k with
  | zero => intro t e he; simp [delay_loop] at he
  | succ k ih =>
    intro t e he
    rw [delay_loop] at he
    by_cases hs : env.isSet t
    · simp only [hs, if_true] at he
      rcases List.mem_singleton.mp he with rfl
      rfl
    · simp only [hs, Bool.false_eq_true, if_false] at he
      rcases List.mem_cons.mp he with rfl | he'
      · rfl
      · exact ih (t + 1) e he'

theorem scan_loop_events_scanEv (env : SniffEnv) (j t0 max_wait : Nat) :
    ∀ fuel i e, e ∈ (scan_loop env j t0 max_wait i fuel).events → isScanEv e = true := by
  intro fuel
  induction fuel with
  | zero => intro i e he; simp [scan_loop] at he
  | succ fuel ih =>
    intro i e he
    rw [scan_loop] at he
    by_cases hs : env.isSet (t0 + i)
    · simp only [hs, if_true] at he
      rcases List.mem_singleton.mp he with rfl
      rfl
    · simp only [hs, Bool.false_eq_true, if_false] at he
      have hev1 : ∀ e', e' ∈ (if 0 < i ∧ i % 5 = 0
          then [Ev.check (t0 + i), Ev.log (progress_msg i max_wait)]
          else [Ev.check (t0 + i)]) → isScanEv e' = true := by
        intro e' he'
        split at he'
        · rcases List.mem_cons.mp he' with rfl | he''
          · rfl
          · rcases List.mem_singleton.mp he'' with rfl; rfl
        · rcases List.mem_singleton.mp he' with rfl; rfl
      rcases hp : (process_log_entries env (env.logsAt j i)).1 with - | ⟨u, hs', reason⟩
      · rw [hp] at he
        simp only [List.mem_append, List.mem_singleton] at he
        rcases he with ((he | he) | he) | he
        · exact hev1 e he
        · subst he; rfl
        · exact process_log_entries_events_scanEv env _ e he
        · exact ih (i + 1) e he
      · rw [hp] at he
        simp only [List.mem_append, List.mem_singleton] at he
        rcases he with (he | he) | he
        · exact hev1 e he
        · subst he; rfl
        · exact process_log_entries_events_scanEv env _ e he

theorem scanEv_not_sniffResult (e : Ev) (h : isScanEv e = true) :
    isSniffResult e = false := by
  cases e <;> first | rfl | simp [isScanEv] at h

theorem scanEv_not_sessionCreate (e : Ev) (h : isScanEv e = true) :
    isSessionCreate e = false := by
  cases e <;> first | rfl | simp [isScanEv] at h

theorem scanEv_not_quit (e : Ev) (h : isScanEv e = true) : isQuit e = false := by
  cases e <;> first | rfl | simp [isScanEv] at h

theorem master_ne_stop : ("Master Playlist" : String) ≠ "Stop" := by decide

theorem master_ne_timeout : ("Master Playlist" : String) ≠ "Timeout" := by decide

theorem duration_reason_ne (x : String) :
    ("長度 " ++ x ++ "s") ≠ "Stop" ∧ ("長度 " ++ x ++ "s") ≠ "Timeout" := by
  obtain ⟨l⟩ := x
  constructor
  · intro h
    have hd : ('長' :: '度' :: ' ' :: (l ++ ['s'])) = ['S', 't', 'o', 'p'] :=
      congrArg String.data h
    exact absurd (List.cons.inj hd).1 (by decide)
  · intro h
    have hd : ('長' :: '度' :: ' ' :: (l ++ ['s'])) = ['T', 'i', 'm', 'e', 'o', 'u', 't'] :=
      congrArg String.data h
    exact absurd (List.cons.inj hd).1 (by decide)

theorem check_accept_reason (fetch : String → HMap → Except String HttpResponse)
    (u : String) (h : HMap) (hacc : (check_is_main_video fetch u h).1 = true) :
    (check_is_main_video fetch u h).2 ≠ "Stop"
    ∧ (check_is_main_video fetch u h).2 ≠ "Timeout" := by
  cases hf : fetch u h with
  | error e =>
    rw [check_is_main_video, hf] at hacc
    exact absurd hacc (by simp)
  | ok resp =>
    rw [check_is_main_video, hf] at hacc
    rw [check_is_main_video, hf]
    have hacc' : (check_response resp).1 = true := hacc
    show (check_response resp).2 ≠ "Stop" ∧ (check_response resp).2 ≠ "Timeout"
    simp only [check_response] at hacc' ⊢
    by_cases h200 : resp.status_code ≠ 200
    · rw [if_pos h200] at hacc'
      exact absurd hacc' (by simp)
    · rw [if_neg h200] at hacc' ⊢
      by_cases hm : strHasSub resp.text "#EXT-X-STREAM-INF" = true
      · rw [if_pos hm]
        exact ⟨master_ne_stop, master_ne_timeout⟩
      · rw [if_neg hm] at hacc' ⊢
        by_cases hgt : ((splitChar resp.text '\n').foldl extinf_step ⟨0, 1⟩).gtNat 300 = true
        · rw [if_pos hgt]
          exact duration_reason_ne _
        · rw [if_neg hgt] at hacc'
          exact absurd hacc' (by simp)

theorem process_log_entries_found (env : SniffEnv) :
    ∀ l u hs rs, (process_log_entries env l).1 = some (u, hs, rs) →
      ∃ ch, (check_is_main_video env.fetch u ch).1 = true
        ∧ rs = (check_is_main_video env.fetch u ch).2 := by
  intro l
  induction l with
  | nil => intro u hs rs h; cases h
  | cons entry rest ih =>
    intro u hs rs h
    cases entry with
    | malformed => exact ih u hs rs (by simpa [process_log_entries] using h)
    | other => exact ih u hs rs (by simpa [process_log_entries] using h)
    | request u' hs' doc =>
      rw [process_log_entries] at h
      by_cases hm : strHasSub u' ".m3u8"
      · simp only [hm, if_true] at h
        by_cases hex : exclusion_list.any (fun x => strHasSub u' x)
        · exact ih u hs rs (by simpa [hex] using h)
        · simp only [hex, Bool.false_eq_true, if_false] at h
          by_cases hres : (check_is_main_video env.fetch u'
              (get_headers (some (if (dictFind? hs' "Referer").isNone
                  && (dictFind? hs' "referer").isNone
                then dictSet hs' "Referer" doc else hs')) (some u'))).1
          · simp only [hres, if_true] at h
            obtain ⟨rfl, -, rfl⟩ : u' = u ∧ _ ∧ _ = rs := by
              have := Option.some.inj h
              exact ⟨congrArg (fun p => p.1) this,
                congrArg (fun p => p.2.1) this,
                congrArg (fun p => p.2.2) this⟩
            exact ⟨_, hres, rfl⟩
          · simp only [hres, Bool.false_eq_true, if_false] at h
            exact ih u hs rs h
      · exact ih u hs rs (by simpa [hm] using h)

theorem scan_loop_shape (env : SniffEnv) (j t0 max_wait : Nat) :
    ∀ fuel i,
      ((scan_loop env j t0 max_wait i fuel).reason = "Stop"
        ∨ (scan_loop env j t0 max_wait i fuel).reason = "Timeout") →
      (scan_loop env j t0 max_wait i fuel).url = none
      ∧ (scan_loop env j t0 max_wait i fuel).headers = none := by
  intro fuel
  induction fuel with
  | zero => intro i _; exact ⟨rfl, rfl⟩
  | succ fuel ih =>
    intro i hr
    rw [scan_loop] at hr ⊢
    by_cases hs : env.isSet (t0 + i)
    · simp [hs]
    · simp only [hs, Bool.false_eq_true, if_false] at hr ⊢
      rcases hp : (process_log_entries env (env.logsAt j i)).1 with - | ⟨u, hs', rs⟩
      · rw [hp] at hr
        exact ih (i + 1) hr
      · rw [hp] at hr
        exfalso
        obtain ⟨ch, hacc, hrs⟩ := process_log_entries_found env _ u hs' rs hp
        have hne := check_accept_reason env.fetch u ch hacc
        rcases hr with hr | hr
        · exact hne.1 (hrs.symm.trans hr)
        · exact hne.2 (hrs.symm.trans hr)

theorem delay_loop_complete (env : SniffEnv) :
    ∀ k t, (∀ s, s < k → env.isSet (t + s) = false) →
      (delay_loop env t k).1 = false ∧ (delay_loop env t k).2.2 = k := by
  intro k
  induction k with
  | zero => intro t _; exact ⟨rfl, rfl⟩
  | succ k ih =>
    intro t h
    have h0 : env.isSet t = false := by simpa using h 0 (Nat.succ_pos k)
    have hrest := ih (t + 1) (fun s hs => by
      have hv := h (s + 1) (Nat.succ_lt_succ hs)
      have heq : t + (s + 1) = t + 1 + s := by omega
      rwa [heq] at hv)
    rw [delay_loop]
    simp only [h0, Bool.false_eq_true, if_false]
    exact ⟨hrest.1, by simp [hrest.2]⟩

theorem filter_sniffResult_scan_events (env : SniffEnv) (j t0 max_wait : Nat) :
    (core_sniff_logic env j t0 max_wait).events.filter isSniffResult = [] := by
  rw [List.filter_eq_nil_iff]
  intro e he
  have := scan_loop_events_scanEv env j t0 max_wait max_wait 0 e he
  simp [scanEv_not_sniffResult e this]

/-- C1 (amended): when the Traffic Scanner terminates the scan phase with
reason `"Stop"` — i.e. the cancellation fired during the scan rather than
during the settle delay — the controller still reports through the
sniff-result callback, with no item and the message `"Timeout"`, exactly as
for a scanner timeout; the two scanner outcomes are indistinguishable at the
callback. -/
theorem c1_stop_reported_as_timeout (env : SniffEnv) (target : String)
    (settings : AppSettings)
    (hnav : env.navRaises target = none)
    (hdel : ∀ s, s < settings.hide_delay → env.isSet s = false)
    (hreason :
      (core_sniff_logic env 0
          (if settings.debug_mode then 0 else settings.hide_delay) 60).reason = "Stop"
      ∨ (core_sniff_logic env 0
          (if settings.debug_mode then 0 else settings.hide_delay) 60).reason = "Timeout") :
    (single_sniff_thread env target settings).filter isSniffResult
      = [Ev.sniffResult none "Timeout"] := by
  have hreport : ∀ raw t0,
      (core_sniff_logic env 0 t0 60).reason = "Stop"
        ∨ (core_sniff_logic env 0 t0 60).reason = "Timeout" →
      (sniff_report env target raw t0).filter isSniffResult
        = [Ev.sniffResult none "Timeout"] := by
    intro raw t0 hr
    have hshape := scan_loop_shape env 0 t0 60 60 0 hr
    rw [sniff_report]
    have hurl : (core_sniff_logic env 0 t0 60).url = none := hshape.1
    have hhdr : (core_sniff_logic env 0 t0 60).headers = none := hshape.2
    rw [hurl, hhdr]
    simp only [Option.isSome_none, Bool.and_false, Bool.false_eq_true, if_false]
    rw [List.filter_append, filter_sniffResult_scan_events]
    rfl
  rw [single_sniff_thread, hnav]
  cases hdbg : settings.debug_mode with
  | true =>
    rw [hdbg] at hreason
    simp only [if_true] at hreason
    have hrep := hreport
      (if strTrim env.pageTitle = "" then "未命名頁面" else strTrim env.pageTitle) 0 hreason
    simp only [hdbg, if_true, List.filter_append, hrep]
    simp [List.filter_cons, isSniffResult]
  | false =>
    rw [hdbg] at hreason
    simp only [Bool.false_eq_true, if_false] at hreason
    have hd := delay_loop_complete env settings.hide_delay 0
      (fun s hs => by simpa using hdel s hs)
    have hdevs : (delay_loop env 0 settings.hide_delay).2.1.filter isSniffResult = [] := by
      rw [List.filter_eq_nil_iff]
      intro e he
      simp [scanEv_not_sniffResult e (delay_loop_events_check env _ _ e he)]
    have hrep := hreport
      (if strTrim env.pageTitle = "" then "未命名頁面" else strTrim env.pageTitle)
      (delay_loop env 0 settings.hide_delay).2.2 (by rw [hd.2]; exact hreason)
    simp only [hdbg, Bool.false_eq_true, if_false, hd.1, List.filter_append, hdevs, hrep]
    simp [List.filter_cons, isSniffResult]

/-- A controller run in debug mode (no settle delay) whose cancellation
signal is set before the scan's first iteration: the scanner returns
`"Stop"`. -/
def settings_debug_cancelled : AppSettings := ⟨true, 0⟩

/-- C1 counterexample: at this concrete run the Traffic Scanner returns the
reason `"Stop"`, yet the controller does invoke the sniff-result callback,
with `(None, "Timeout")` — it does not terminate silently in a Stopped
state. -/
theorem c1_counterexample_stop_invokes_timeout_callback :
    (core_sniff_logic env_stopped 0 0 60).reason = "Stop"
    ∧ Ev.sniffResult none "Timeout"
        ∈ single_sniff_thread env_stopped "http://site/page" settings_debug_cancelled
    ∧ (single_sniff_thread env_stopped "http://site/page"
        settings_debug_cancelled).countP isSniffResult = 1 := by
  decide

/-- C1 witness: the amended claim instantiated at the concrete cancelled
run. -/
theorem c1_stop_reported_as_timeout_witness :
    (single_sniff_thread env_stopped "http://site/page"
        settings_debug_cancelled).filter isSniffResult
      = [Ev.sniffResult none "Timeout"] :=
  c1_stop_reported_as_timeout env_stopped "http://site/page" settings_debug_cancelled
    rfl (fun s hs => absurd hs (Nat.not_lt_zero s)) (Or.inl (by decide))

/-! ## Lemmas for the batch job runners -/

/-- Events a batch loop body can produce — everything except session
creation, session teardown and the sniff-result callback. -/
def isBodyEv : Ev → Bool
  | .sessionCreate => false
  | .quit => false
  | .sniffResult _ _ => false
  | _ => true

theorem scanEv_body (e : Ev) (h : isScanEv e = true) : isBodyEv e = true := by
  cases e <;> first | rfl | simp [isScanEv] at h

theorem bodyEv_not_sessionCreate (e : Ev) (h : isBodyEv e = true) :
    isSessionCreate e = false := by
  cases e <;> first | rfl | simp [isBodyEv] at h

theorem bodyEv_not_quit (e : Ev) (h : isBodyEv e = true) : isQuit e = false := by
  cases e <;> first | rfl | simp [isBodyEv] at h

theorem repair_loop_events_body (env : SniffEnv) (hd : Nat) :
    ∀ items j t e, e ∈ repair_loop env hd j t items → isBodyEv e = true := by
  intro items
  induction items with
  | nil => intro j t e he; simp [repair_loop] at he
  | cons p rest ih =>
    obtain ⟨idx, item⟩ := p
    intro j t e he
    simp only [repair_loop] at he
    by_cases hs : env.isSet t = true
    · rw [if_pos hs] at he
      rcases List.mem_singleton.mp he with rfl; rfl
    · rw [if_neg hs] at he
      by_cases ho : item.original_url = ""
      · rw [if_pos ho] at he
        rcases List.mem_append.mp he with he | he
        · rcases List.mem_append.mp he with he | he
          · fin_cases he <;> rfl
          · fin_cases he <;> rfl
        · exact ih _ _ e he
      · rw [if_neg ho] at he
        rcases hnavr : env.navRaises item.original_url with - | ex
        · rw [hnavr] at he
          by_cases hd1 : (delay_loop env (t + 1) hd).1 = true
          · rw [if_pos hd1] at he
            rcases List.mem_append.mp he with he | he
            · rcases List.mem_append.mp he with he | he
              · fin_cases he <;> rfl
              · fin_cases he <;> rfl
            · exact scanEv_body e (delay_loop_events_check env _ _ e he)
          · rw [if_neg hd1] at he
            rcases List.mem_append.mp he with he | he
            · rcases List.mem_append.mp he with he | he
              · rcases List.mem_append.mp he with he | he
                · rcases List.mem_append.mp he with he | he
                  · rcases List.mem_append.mp he with he | he
                    · fin_cases he <;> rfl
                    · fin_cases he <;> rfl
                  · exact scanEv_body e (delay_loop_events_check env _ _ e he)
                · exact scanEv_body e
                    (scan_loop_events_scanEv env j (t + 1 + (delay_loop env (t + 1) hd).2.2)
                      45 45 0 e he)
              · split at he
                · fin_cases he <;> rfl
                · fin_cases he <;> rfl
            · exact ih _ _ e he
        · simp only [hnavr] at he
          by_cases hex : ex = "Stop"
          · rw [if_pos hex] at he
            rcases List.mem_append.mp he with he | he
            · fin_cases he <;> rfl
            · fin_cases he <;> rfl
          · rw [if_neg hex] at he
            rcases List.mem_append.mp he with he | he
            · rcases List.mem_append.mp he with he | he
              · rcases List.mem_append.mp he with he | he
                · fin_cases he <;> rfl
                · fin_cases he <;> rfl
              · fin_cases he <;> rfl
            · exact ih _ _ e he

/-- C8: a repair batch creates exactly one browser-automation session for
the whole batch, and tears it down exactly once, as the second-to-last
action before the end-of-batch log — on every exit path (cancellation,
per-item navigation exceptions, scan failures included, since the
environment is universally quantified). -/
theorem c8_repair_batch_single_session (env : SniffEnv)
    (items : List (Nat × MediaItem)) (settings : AppSettings) (hne : items ≠ []) :
    (batch_repair_thread env items settings).countP isSessionCreate = 1
    ∧ (batch_repair_thread env items settings).countP isQuit = 1
    ∧ ∃ mid, batch_repair_thread env items settings
        = Ev.sessionCreate :: mid ++ [Ev.quit, Ev.log "🏁 修復任務結束"]
        ∧ mid.countP isSessionCreate = 0 ∧ mid.countP isQuit = 0 := by
  have hmid1 : (repair_loop env settings.hide_delay 0 0 items).countP isSessionCreate = 0 :=
    List.countP_eq_zero.mpr (fun e he => by
      simp [bodyEv_not_sessionCreate e
        (repair_loop_events_body env settings.hide_delay items 0 0 e he)])
  have hmid2 : (repair_loop env settings.hide_delay 0 0 items).countP isQuit = 0 :=
    List.countP_eq_zero.mpr (fun e he => by
      simp [bodyEv_not_quit e
        (repair_loop_events_body env settings.hide_delay items 0 0 e he)])
  refine ⟨?_, ?_, repair_loop env settings.hide_delay 0 0 items, rfl, hmid1, hmid2⟩
  · show (Ev.sessionCreate :: (repair_loop env settings.hide_delay 0 0 items
        ++ [Ev.quit, Ev.log "🏁 修復任務結束"])).countP isSessionCreate = 1
    rw [List.countP_cons, List.countP_append, hmid1]
    rfl
  · show (Ev.sessionCreate :: (repair_loop env settings.hide_delay 0 0 items
        ++ [Ev.quit, Ev.log "🏁 修復任務結束"])).countP isQuit = 1
    rw [List.countP_cons, List.countP_append, hmid2]
    rfl

/-- A repairable item for the C8 witness. -/
def item_repair_w : MediaItem := ⟨some "B", "http://old.m3u8", "http://page", [], true, ""⟩

/-- C8 witness: the theorem applied to a one-item batch against the
excluded-traffic environment. -/
theorem c8_repair_batch_single_session_witness :
    (batch_repair_thread env_excluded [(0, item_repair_w)] ⟨false, 1⟩).countP
        isSessionCreate = 1
    ∧ (batch_repair_thread env_excluded [(0, item_repair_w)] ⟨false, 1⟩).countP isQuit = 1 :=
  ⟨(c8_repair_batch_single_session env_excluded [(0, item_repair_w)] ⟨false, 1⟩
      (List.cons_ne_nil _ _)).1,
   (c8_repair_batch_single_session env_excluded [(0, item_repair_w)] ⟨false, 1⟩
      (List.cons_ne_nil _ _)).2.1⟩

theorem validity_loop_no_row_for_empty (env : SniffEnv) (i : Nat) :
    ∀ items t, (∀ it : MediaItem, (i, it) ∈ items → it.m3u8 = "") →
      (validity_loop env t items).countP (rowUpdateFor i) = 0 := by
  intro items
  induction items with
  | nil => intro t _; rfl
  | cons p rest ih =>
    obtain ⟨idx, item⟩ := p
    intro t hall
    have hrest := ih (t + 1) (fun it hit => hall it (List.mem_cons_of_mem _ hit))
    rw [validity_loop]
    by_cases hs : env.isSet t = true
    · rw [if_pos hs]; rfl
    · rw [if_neg hs]
      by_cases hurl : item.m3u8 = ""
      · rw [if_pos hurl]
        simp [List.countP_cons, rowUpdateFor, hrest]
      · rw [if_neg hurl]
        have hne2 : idx ≠ i := by
          intro h
          subst h
          exact absurd (hall item (List.mem_cons_self _ _)) hurl
        have hidx : (idx == i) = false := by simpa using hne2
        simp [List.countP_cons, List.countP_append, rowUpdateFor, hidx, hrest]

theorem validity_loop_interim (env : SniffEnv) (hstop : env.stopAt = none) :
    ∀ items t jj it, (jj, it) ∈ items → it.m3u8 ≠ "" →
      Ev.rowUpdate jj "檢查中..." none none none ∈ validity_loop env t items := by
  intro items
  induction items with
  | nil => intro t jj it hmem _; cases hmem
  | cons p rest ih =>
    obtain ⟨idx, item⟩ := p
    intro t jj it hmem hurl
    have hs : env.isSet t = false := by simp [SniffEnv.isSet, hstop]
    rw [validity_loop, if_neg (by simp [hs])]
    rcases List.mem_cons.mp hmem with heq | hmem'
    · cases heq
      rw [if_neg hurl]
      exact List.mem_append.mpr (Or.inl (by simp))
    · by_cases hurl' : item.m3u8 = ""
      · rw [if_pos hurl']
        exact List.mem_cons_of_mem _ (ih (t + 1) jj it hmem' hurl)
      · rw [if_neg hurl']
        refine List.mem_append.mpr (Or.inr (ih (t + 1) jj it hmem' hurl))

/-- C9: a validity batch never touches the row of an item whose manifest URL
is empty (no interim and no final row update for that index), still
processes the other items (each non-empty item gets its interim
`"checking"` row update when the batch is not cancelled), and always emits
the completion log as its final action. -/
theorem c9_empty_manifest_skipped_silently (env : SniffEnv)
    (items : List (Nat × MediaItem)) (hstop : env.stopAt = none)
    (i : Nat) (item0 : MediaItem) (hmem : (i, item0) ∈ items)
    (hempty : item0.m3u8 = "")
    (hall : ∀ it : MediaItem, (i, it) ∈ items → it.m3u8 = "") :
    (check_validity_thread env items).countP (rowUpdateFor i) = 0
    ∧ (check_validity_thread env items).getLast? = some (.log "🏁 檢查完成")
    ∧ ∀ jj it, (jj, it) ∈ items → it.m3u8 ≠ "" →
        Ev.rowUpdate jj "檢查中..." none none none ∈ check_validity_thread env items := by
  refine ⟨?_, ?_, ?_⟩
  · show (Ev.log _ :: (validity_loop env 0 items ++ [Ev.log "🏁 檢查完成"])).countP
        (rowUpdateFor i) = 0
    rw [List.countP_cons, List.countP_append,
      validity_loop_no_row_for_empty env i items 0 hall]
    rfl
  · show (Ev.log _ :: (validity_loop env 0 items ++ [Ev.log "🏁 檢查完成"])).getLast?
        = some (.log "🏁 檢查完成")
    rw [List.getLast?_cons, List.getLast?_concat]
    rfl
  · intro jj it hmem' hurl
    have h := validity_loop_interim env hstop items 0 jj it hmem' hurl
    show Ev.rowUpdate jj "檢查中..." none none none
        ∈ Ev.log _ :: (validity_loop env 0 items ++ [Ev.log "🏁 檢查完成"])
    exact List.mem_cons_of_mem _ (List.mem_append.mpr (Or.inl h))

/-- The C9 witness batch: index 0 has no manifest URL, index 1 has one. -/
def item_empty_w : MediaItem := ⟨some "A", "", "http://pageA", [], true, ""⟩

/-- A checkable item for the C9 witness. -/
def item_full_w : MediaItem := ⟨some "B", "http://v.m3u8", "http://pageB", [], true, ""⟩

/-- C9 witness: the theorem applied to the two-item batch
`[(0, empty), (1, non-empty)]` — no row update for index 0, the completion
log last, and index 1 still gets its interim row update. -/
theorem c9_empty_manifest_skipped_silently_witness :
    (check_validity_thread env_excluded [(0, item_empty_w), (1, item_full_w)]).countP
        (rowUpdateFor 0) = 0
    ∧ (check_validity_thread env_excluded
        [(0, item_empty_w), (1, item_full_w)]).getLast? = some (.log "🏁 檢查完成")
    ∧ Ev.rowUpdate 1 "檢查中..." none none none
        ∈ check_validity_thread env_excluded [(0, item_empty_w), (1, item_full_w)] := by
  have h := c9_empty_manifest_skipped_silently env_excluded
    [(0, item_empty_w), (1, item_full_w)]
    rfl 0 item_empty_w (List.mem_cons_self _ _) rfl
    (by
      intro it hit
      rcases List.mem_cons.mp hit with heq | hit'
      · cases heq; rfl
      · rcases List.mem_cons.mp hit' with heq' | hit''
        · have h01 : (0 : Nat) = 1 := congrArg Prod.fst heq'
          exact absurd h01 (by decide)
        · cases hit'')
  exact ⟨h.1, h.2.1,
    h.2.2 1 item_full_w (List.mem_cons_of_mem _ (List.mem_cons_self _ _)) (by decide)⟩

end MediaSniffer
